import Mathlib

/-!
# GoPomodoro core engine: a shallow embedding with verified properties

This file embeds `internal/core/engine.go` of GoPomodoro in Lean 4 and
proves properties of the Pomodoro phase engine.

Modelling conventions:
* Go `time.Time` and `time.Duration` are both modelled as `Int`
  (nanoseconds; `time.Duration` is an `int64` of nanoseconds, and a
  `time.Time` is modelled by its offset from the zero time, so the zero
  timestamp is `0`).  The claims under study never exercise `int64`
  overflow, so plain `Int` arithmetic is used.
* `time.Until(t)` evaluated at clock time `now` is `t - now`.
* The engine's mutable data (`state State`, `pausedRemain`, and whether a
  deadline watcher goroutine is alive, i.e. `cancel != nil`) is flattened
  into one record `EngState`.  The public snapshot struct `State` is the
  projection `StateSnap`.
* Each public method that reads the clock takes the current time `now` as
  an explicit argument.  Methods are atomic state transformers (in the Go
  code every method body runs under the engine mutex).
* The deadline-fire path (`advance`, reached from the watcher goroutine
  spawned by `spawnLocked`) is modelled as an event that may occur
  whenever a watcher is alive and the deadline has passed.  Go's `%` on
  `int` is truncated division remainder, `Int.tmod`; `x % 0` panics in
  Go, so `advance` returns an `Option`, `none` being the panic.
-/

namespace GoPomodoro

/-- Go `type Phase int` with the three declared constants. -/
inductive Phase where
  | work
  | shortBreak
  | longBreak
deriving DecidableEq, Repr

/-- Struct `Config` from engine.go: durations in nanoseconds plus the long-break
cadence `LongEvery`. -/
structure Config where
  Work : Int
  ShortBrk : Int
  LongBrk : Int
  LongEvery : Int
deriving DecidableEq, Repr

/-- The public snapshot struct `State` from engine.go. -/
structure StateSnap where
  Phase : Phase
  StartedAt : Int
  EndsAt : Int
  PomodoroDone : Int
  Paused : Bool
deriving DecidableEq, Repr

/-- The engine's mutable data, flattened: the `state State` field, the
`pausedRemain` duration, and `watcher` standing for `cancel != nil`
(a live deadline-watcher goroutine). -/
structure EngState where
  phase : Phase
  startedAt : Int
  endsAt : Int
  pomodoroDone : Int
  paused : Bool
  pausedRemain : Int
  watcher : Bool
deriving DecidableEq, Repr

/-- Constructor `New(cfg)`: builds the engine with `state: State{Phase: PhaseWork}`
(all other fields at their zero values) and no watcher.  The Go function
performs no validation and cannot fail: it is total in `cfg`. -/
def New (_ : Config) : EngState :=
  { phase := .work
    startedAt := 0
    endsAt := 0
    pomodoroDone := 0
    paused := false
    pausedRemain := 0
    watcher := false }

/-- Method `State()`: snapshot of the public `state` field. -/
def State (s : EngState) : StateSnap :=
  { Phase := s.phase
    StartedAt := s.startedAt
    EndsAt := s.endsAt
    PomodoroDone := s.pomodoroDone
    Paused := s.paused }

/-- Method `PhaseDuration(ph)`: pure lookup from the config. -/
def PhaseDuration (cfg : Config) (ph : Phase) : Int :=
  match ph with
  | .work => cfg.Work
  | .shortBreak => cfg.ShortBrk
  | .longBreak => cfg.LongBrk

/-- Method `Start()`: unconditionally (re)enter WORK from `now`, clear the pause
state, and (re)spawn the watcher (`spawnLocked`). -/
def Start (cfg : Config) (s : EngState) (now : Int) : EngState :=
  { s with
    phase := .work
    startedAt := now
    endsAt := now + cfg.Work
    paused := false
    pausedRemain := 0
    watcher := true }

/-- Method `Pause()`: no-op when already paused; otherwise freeze
`max(time.Until(EndsAt), 0)` into `pausedRemain`, set `Paused`, and cancel
the watcher (`stopLocked`). -/
def Pause (s : EngState) (now : Int) : EngState :=
  if s.paused then s
  else
    { s with
      pausedRemain := max (s.endsAt - now) 0
      paused := true
      watcher := false }

/-- Method `Resume()`: no-op when not paused; otherwise restart the frozen
remaining from `now` and respawn the watcher. -/
def Resume (s : EngState) (now : Int) : EngState :=
  if !s.paused then s
  else
    { s with
      startedAt := now
      endsAt := now + max s.pausedRemain 0
      paused := false
      pausedRemain := 0
      watcher := true }

/-- Method `Stop()`: cancel the watcher and reset the public state to the struct
literal `State{Phase: PhaseWork}` — every field of the snapshot returns to
its zero value.  The engine-level `pausedRemain` field is not touched. -/
def Stop (s : EngState) : EngState :=
  { s with
    phase := .work
    startedAt := 0
    endsAt := 0
    pomodoroDone := 0
    paused := false
    watcher := false }

/-- Method `advance()`: the deadline-fire transition.  In WORK, increment
`PomodoroDone` and branch on `PomodoroDone % LongEvery == 0` (Go's
truncated `%`; `% 0` panics, modelled as `none`); in a break, return to
WORK.  Either way the new phase starts at `now` and a fresh watcher is
spawned. -/
def advance (cfg : Config) (s : EngState) (now : Int) : Option EngState :=
  match s.phase with
  | .work =>
      if cfg.LongEvery = 0 then none
      else
        let done := s.pomodoroDone + 1
        if Int.tmod done cfg.LongEvery = 0 then
          some { s with
                 phase := .longBreak
                 pomodoroDone := done
                 startedAt := now
                 endsAt := now + cfg.LongBrk
                 watcher := true }
        else
          some { s with
                 phase := .shortBreak
                 pomodoroDone := done
                 startedAt := now
                 endsAt := now + cfg.ShortBrk
                 watcher := true }
  | .shortBreak | .longBreak =>
      some { s with
             phase := .work
             startedAt := now
             endsAt := now + cfg.Work
             watcher := true }

/-- Method `Remaining()`: the frozen remaining when paused, else
`max(time.Until(EndsAt), 0)`. -/
def Remaining (s : EngState) (now : Int) : Int :=
  if s.paused then max s.pausedRemain 0
  else max (s.endsAt - now) 0

/-- The configurations the spec calls valid: positive durations and a
positive long-break cadence. -/
def ValidConfig (cfg : Config) : Prop :=
  0 < cfg.Work ∧ 0 < cfg.ShortBrk ∧ 0 < cfg.LongBrk ∧ 0 < cfg.LongEvery

instance (cfg : Config) : Decidable (ValidConfig cfg) := by
  unfold ValidConfig; infer_instance

/-- States reachable from construction by the engine's public commands
and deadline fires.  A fire requires a live watcher whose deadline has
passed and a non-panicking `advance`. -/
inductive Reachable (cfg : Config) : EngState → Prop where
  | init : Reachable cfg (New cfg)
  | start {s : EngState} (now : Int) :
      Reachable cfg s → Reachable cfg (Start cfg s now)
  | pause {s : EngState} (now : Int) :
      Reachable cfg s → Reachable cfg (Pause s now)
  | resume {s : EngState} (now : Int) :
      Reachable cfg s → Reachable cfg (Resume s now)
  | stop {s : EngState} :
      Reachable cfg s → Reachable cfg (Stop s)
  | fire {s s' : EngState} (now : Int) :
      Reachable cfg s → s.watcher = true → s.endsAt ≤ now →
      advance cfg s now = some s' → Reachable cfg s'

/-- A sample valid configuration used for concrete instantiations:
work 10, short break 2, long break 3, long break every 4 pomodoros. -/
def cfgEx : Config := { Work := 10, ShortBrk := 2, LongBrk := 3, LongEvery := 4 }

/-- Fields of the state produced by a successful `advance`: the pause
bookkeeping is untouched, a watcher is live, the new phase starts at
`now`, and the deadline is `now` plus one of the configured durations. -/
theorem advance_fields {cfg : Config} {s s' : EngState} {now : Int}
    (h : advance cfg s now = some s') :
    s'.pausedRemain = s.pausedRemain ∧ s'.paused = s.paused ∧
    s'.watcher = true ∧ s'.startedAt = now ∧
    (s'.endsAt = now + cfg.LongBrk ∨ s'.endsAt = now + cfg.ShortBrk ∨
      s'.endsAt = now + cfg.Work) := by
  unfold advance at h
  cases hp : s.phase <;> rw [hp] at h
  · by_cases h0 : cfg.LongEvery = 0
    · simp [h0] at h
    · rw [if_neg h0] at h
      by_cases hm : Int.tmod (s.pomodoroDone + 1) cfg.LongEvery = 0
      · rw [if_pos hm] at h
        cases h
        exact ⟨rfl, rfl, rfl, rfl, Or.inl rfl⟩
      · rw [if_neg hm] at h
        cases h
        exact ⟨rfl, rfl, rfl, rfl, Or.inr (Or.inl rfl)⟩
  · cases h
    exact ⟨rfl, rfl, rfl, rfl, Or.inr (Or.inr rfl)⟩
  · cases h
    exact ⟨rfl, rfl, rfl, rfl, Or.inr (Or.inr rfl)⟩

/-- Invariant: the frozen `pausedRemain` is never negative in a reachable
state (`Pause` freezes a clamped value, every other path writes 0 or
leaves it alone). -/
theorem pausedRemain_nonneg {cfg : Config} {s : EngState}
    (h : Reachable cfg s) : 0 ≤ s.pausedRemain := by
  induction h with
  | init => simp [New]
  | start now _ ih => simp [Start]
  | pause now _ ih =>
      unfold Pause
      split
      · exact ih
      · simp
  | resume now _ ih =>
      unfold Resume
      split
      · exact ih
      · simp
  | stop _ ih => simpa [Stop] using ih
  | fire now _ hw hn hadv ih => rw [(advance_fields hadv).1]; exact ih

/-- Invariant: under non-negative configured durations, `startedAt` never
exceeds `endsAt` in any reachable state. -/
theorem startedAt_le_endsAt {cfg : Config} {s : EngState}
    (hW : 0 ≤ cfg.Work) (hS : 0 ≤ cfg.ShortBrk) (hL : 0 ≤ cfg.LongBrk)
    (h : Reachable cfg s) : s.startedAt ≤ s.endsAt := by
  induction h with
  | init => simp [New]
  | start now _ ih => simp [Start]; omega
  | pause now _ ih =>
      unfold Pause
      split
      · exact ih
      · simpa using ih
  | resume now _ ih =>
      unfold Resume
      split
      · exact ih
      · simp
  | stop _ ih => simp [Stop]
  | fire now _ hw hn hadv ih =>
      obtain ⟨-, -, -, hst, hend⟩ := advance_fields hadv
      rcases hend with h1 | h1 | h1 <;> rw [hst, h1] <;> omega

/-- C1: the claim says `New` rejects a config with `LongEvery ≤ 0` (or a
negative duration) as an invalid-configuration error so that the modulo
in the deadline-fire transition can never fault.  The code performs no
validation: with `LongEvery = 0`, `New` returns an engine, and the first
WORK deadline fire evaluates `PomodoroDone % 0`, which panics in Go
(modelled as `advance = none`).  This theorem evaluates the code at that
failing input. -/
theorem c1_new_accepts_invalid_config_and_advance_faults :
    New { Work := 10, ShortBrk := 2, LongBrk := 3, LongEvery := 0 } =
      { phase := .work, startedAt := 0, endsAt := 0, pomodoroDone := 0,
        paused := false, pausedRemain := 0, watcher := false } ∧
    advance { Work := 10, ShortBrk := 2, LongBrk := 3, LongEvery := 0 }
      (Start { Work := 10, ShortBrk := 2, LongBrk := 3, LongEvery := 0 }
        (New { Work := 10, ShortBrk := 2, LongBrk := 3, LongEvery := 0 }) 1)
      11 = none := by
  constructor
  · rfl
  · rfl

/-- C2 counterexample: the claim says `Stop()` leaves `PomodoroDone`
unchanged.  In the reachable state obtained by `Start` at time 1 and a
deadline fire at time 11 (under `cfgEx`), `PomodoroDone = 1`, yet
`Stop` writes the zero struct literal and the count becomes 0. -/
theorem c2_counterexample :
    Reachable cfgEx
      { phase := .shortBreak, startedAt := 11, endsAt := 13,
        pomodoroDone := 1, paused := false, pausedRemain := 0,
        watcher := true } ∧
    ({ phase := .shortBreak, startedAt := 11, endsAt := 13,
       pomodoroDone := 1, paused := false, pausedRemain := 0,
       watcher := true } : EngState).pomodoroDone = 1 ∧
    (Stop { phase := .shortBreak, startedAt := 11, endsAt := 13,
            pomodoroDone := 1, paused := false, pausedRemain := 0,
            watcher := true }).pomodoroDone = 0 := by
  refine ⟨?_, by decide, by decide⟩
  exact Reachable.fire 11 (Reachable.start 1 Reachable.init)
    (by decide) (by decide) (by decide)

/-- C2 amended: `Stop()` resets the public state to the zero idle shape —
phase WORK, `startedAt` zero, `paused` false — and also resets
`PomodoroDone` to 0; the count is not preserved across `Stop`. -/
theorem c2_stop_resets_state_including_count (s : EngState) :
    State (Stop s) =
      { Phase := .work, StartedAt := 0, EndsAt := 0, PomodoroDone := 0,
        Paused := false } := by
  rfl

/-- C3: with cadence `N = LongEvery > 0`, a deadline fire in WORK
increments the completed-work count by one, starts the next phase at
`now`, and picks LONG_BREAK with the long-break duration exactly when
`N` divides the new count, SHORT_BREAK with the short-break duration
otherwise; a fire in either break returns to WORK with the work
duration.  Hence for `N = k` the first `k-1` completed WORK phases lead
to SHORT_BREAK and every `k`-th to LONG_BREAK. -/
theorem c3_deadline_fire_transitions (cfg : Config) (s : EngState)
    (now : Int) (hN : 0 < cfg.LongEvery) :
    (s.phase = .work →
      ∃ s', advance cfg s now = some s' ∧
        s'.pomodoroDone = s.pomodoroDone + 1 ∧
        s'.startedAt = now ∧
        (cfg.LongEvery ∣ s'.pomodoroDone →
          s'.phase = .longBreak ∧ s'.endsAt = s'.startedAt + cfg.LongBrk) ∧
        (¬ cfg.LongEvery ∣ s'.pomodoroDone →
          s'.phase = .shortBreak ∧
            s'.endsAt = s'.startedAt + cfg.ShortBrk)) ∧
    ((s.phase = .shortBreak ∨ s.phase = .longBreak) →
      ∃ s', advance cfg s now = some s' ∧
        s'.phase = .work ∧ s'.startedAt = now ∧
        s'.endsAt = s'.startedAt + cfg.Work) := by
  constructor
  · intro hw
    have h0 : cfg.LongEvery ≠ 0 := by omega
    by_cases hm : Int.tmod (s.pomodoroDone + 1) cfg.LongEvery = 0
    · have hs : advance cfg s now = some
          { s with
            phase := Phase.longBreak
            pomodoroDone := s.pomodoroDone + 1
            startedAt := now
            endsAt := now + cfg.LongBrk
            watcher := true } := by
        simp only [advance, hw, if_neg h0, if_pos hm]
      have hdvd : cfg.LongEvery ∣ s.pomodoroDone + 1 :=
        Int.dvd_iff_tmod_eq_zero.mpr hm
      exact ⟨_, hs, rfl, rfl, fun _ => ⟨rfl, rfl⟩,
        fun hc => absurd hdvd hc⟩
    · have hs : advance cfg s now = some
          { s with
            phase := Phase.shortBreak
            pomodoroDone := s.pomodoroDone + 1
            startedAt := now
            endsAt := now + cfg.ShortBrk
            watcher := true } := by
        simp only [advance, hw, if_neg h0, if_neg hm]
      have hndvd : ¬ cfg.LongEvery ∣ s.pomodoroDone + 1 := fun hd =>
        hm (Int.dvd_iff_tmod_eq_zero.mp hd)
      exact ⟨_, hs, rfl, rfl, fun hc => absurd hc hndvd,
        fun _ => ⟨rfl, rfl⟩⟩
  · intro hb
    have hs : advance cfg s now = some
        { s with
          phase := Phase.work
          startedAt := now
          endsAt := now + cfg.Work
          watcher := true } := by
      rcases hb with hb | hb <;> simp only [advance, hb]
    exact ⟨_, hs, rfl, rfl, rfl⟩

/-- C3 witness: under `Config{10, 2, 3, 2}`, a WORK fire with one
pomodoro already done reaches LONG_BREAK (count 2, divisible by 2), and
a SHORT_BREAK fire returns to WORK. -/
theorem c3_witness :
    (advance { Work := 10, ShortBrk := 2, LongBrk := 3, LongEvery := 2 }
        { phase := .work, startedAt := 5, endsAt := 15, pomodoroDone := 1,
          paused := false, pausedRemain := 0, watcher := true } 15).map
      EngState.phase = some .longBreak ∧
    (advance { Work := 10, ShortBrk := 2, LongBrk := 3, LongEvery := 2 }
        { phase := .shortBreak, startedAt := 15, endsAt := 18,
          pomodoroDone := 2, paused := false, pausedRemain := 0,
          watcher := true } 18).map EngState.phase = some .work := by
  constructor
  · obtain ⟨hwork, -⟩ := c3_deadline_fire_transitions
      { Work := 10, ShortBrk := 2, LongBrk := 3, LongEvery := 2 }
      { phase := .work, startedAt := 5, endsAt := 15, pomodoroDone := 1,
        paused := false, pausedRemain := 0, watcher := true } 15
      (by decide)
    obtain ⟨s', hs, hd, -, hlong, -⟩ := hwork rfl
    have hdvd : (2 : Int) ∣ s'.pomodoroDone := by rw [hd]; decide
    rw [hs, Option.map_some', (hlong hdvd).1]
  · obtain ⟨-, hbrk⟩ := c3_deadline_fire_transitions
      { Work := 10, ShortBrk := 2, LongBrk := 3, LongEvery := 2 }
      { phase := .shortBreak, startedAt := 15, endsAt := 18,
        pomodoroDone := 2, paused := false, pausedRemain := 0,
        watcher := true } 18 (by decide)
    obtain ⟨s', hs, hp, -, -⟩ := hbrk (Or.inl rfl)
    rw [hs, Option.map_some', hp]

/-- C4 counterexample: the claim requires `endsAt > startedAt` in every
reachable non-paused started state.  Under the valid config `cfgEx`,
start at time 1 (deadline 11), pause exactly at the deadline (frozen
remaining 0), resume at time 12: the resulting state is non-paused and
started but has `endsAt = startedAt = 12`. -/
theorem c4_counterexample :
    ValidConfig cfgEx ∧
    Reachable cfgEx
      { phase := .work, startedAt := 12, endsAt := 12, pomodoroDone := 0,
        paused := false, pausedRemain := 0, watcher := true } ∧
    ({ phase := .work, startedAt := 12, endsAt := 12, pomodoroDone := 0,
       paused := false, pausedRemain := 0,
       watcher := true } : EngState).paused = false ∧
    ({ phase := .work, startedAt := 12, endsAt := 12, pomodoroDone := 0,
       paused := false, pausedRemain := 0,
       watcher := true } : EngState).startedAt ≠ 0 ∧
    ¬ ({ phase := .work, startedAt := 12, endsAt := 12, pomodoroDone := 0,
         paused := false, pausedRemain := 0,
         watcher := true } : EngState).startedAt <
      ({ phase := .work, startedAt := 12, endsAt := 12, pomodoroDone := 0,
         paused := false, pausedRemain := 0,
         watcher := true } : EngState).endsAt := by
  refine ⟨by decide, ?_, by decide, by decide, by decide⟩
  have h3 := Reachable.resume 12
    (Reachable.pause 11
      (Reachable.start 1 (Reachable.init : Reachable cfgEx (New cfgEx))))
  have he : Resume (Pause (Start cfgEx (New cfgEx) 1) 11) 12 =
      { phase := .work, startedAt := 12, endsAt := 12, pomodoroDone := 0,
        paused := false, pausedRemain := 0, watcher := true } := by
    decide
  rwa [he] at h3

/-- C4 amended: in every reachable state under a valid config with
`paused == false` and the engine started (`startedAt` not the zero
sentinel), `endsAt ≥ startedAt` holds — equality is possible when a
pause froze a remaining of 0 (pause at or after the deadline) and a
resume restored it — and remaining time is derived as
`max(endsAt - now, 0)` from the deadline, never accumulated. -/
theorem c4_deadline_bounds_started (cfg : Config) (s : EngState)
    (now : Int) (hc : ValidConfig cfg) (h : Reachable cfg s)
    (hp : s.paused = false) (hst : s.startedAt ≠ 0) :
    s.startedAt ≤ s.endsAt ∧
    Remaining s now = max (s.endsAt - now) 0 := by
  obtain ⟨hW, hS, hL, -⟩ := hc
  exact ⟨startedAt_le_endsAt hW.le hS.le hL.le h, by simp [Remaining, hp]⟩

/-- C4 witness: the amended bound evaluated on the state reached by a
single `Start` at time 1 under `cfgEx`, queried at time 4. -/
theorem c4_witness :
    (Start cfgEx (New cfgEx) 1).startedAt ≤
      (Start cfgEx (New cfgEx) 1).endsAt ∧
    Remaining (Start cfgEx (New cfgEx) 1) 4 =
      max ((Start cfgEx (New cfgEx) 1).endsAt - 4) 0 :=
  c4_deadline_bounds_started cfgEx (Start cfgEx (New cfgEx) 1) 4
    (by decide) (Reachable.start 1 Reachable.init) (by decide) (by decide)

/-- C5: in every reachable state, `Remaining()` returns the frozen
`pausedRemain` when paused and `max(endsAt - now, 0)` otherwise, and it
is never negative at any query time. -/
theorem c5_remaining_characterization (cfg : Config) (s : EngState)
    (now : Int) (h : Reachable cfg s) :
    (s.paused = true → Remaining s now = s.pausedRemain) ∧
    (s.paused = false → Remaining s now = max (s.endsAt - now) 0) ∧
    0 ≤ Remaining s now := by
  have hnn := pausedRemain_nonneg h
  refine ⟨fun hp => ?_, fun hp => by simp [Remaining, hp], ?_⟩
  · simp [Remaining, hp]
    omega
  · unfold Remaining
    split <;> omega

/-- C5 witness: the characterization evaluated on the paused state
reached by `Start` at time 1 then `Pause` at time 4 under `cfgEx`,
queried at time 6. -/
theorem c5_witness :
    ((Pause (Start cfgEx (New cfgEx) 1) 4).paused = true →
      Remaining (Pause (Start cfgEx (New cfgEx) 1) 4) 6 =
        (Pause (Start cfgEx (New cfgEx) 1) 4).pausedRemain) ∧
    ((Pause (Start cfgEx (New cfgEx) 1) 4).paused = false →
      Remaining (Pause (Start cfgEx (New cfgEx) 1) 4) 6 =
        max ((Pause (Start cfgEx (New cfgEx) 1) 4).endsAt - 6) 0) ∧
    0 ≤ Remaining (Pause (Start cfgEx (New cfgEx) 1) 4) 6 :=
  c5_remaining_characterization cfgEx (Pause (Start cfgEx (New cfgEx) 1) 4)
    6 (Reachable.pause 4 (Reachable.start 1 Reachable.init))

/-- C6: from a running (non-paused, started) state, `Pause` immediately
followed by `Resume` at the same instant leaves `Remaining()` unchanged
and leaves the phase unchanged: the freeze/restore pair is a round
trip. -/
theorem c6_pause_resume_roundtrip (s : EngState) (now : Int)
    (hp : s.paused = false) (hst : s.startedAt ≠ 0) :
    Remaining (Resume (Pause s now) now) now = Remaining s now ∧
    (Resume (Pause s now) now).phase = s.phase := by
  unfold Pause Resume Remaining
  simp [hp]

/-- C6 witness: the round trip evaluated on the running state reached by
`Start` at time 1 under `cfgEx`, with the pause/resume pair at time 4. -/
theorem c6_witness :
    Remaining (Resume (Pause (Start cfgEx (New cfgEx) 1) 4) 4) 4 =
      Remaining (Start cfgEx (New cfgEx) 1) 4 ∧
    (Resume (Pause (Start cfgEx (New cfgEx) 1) 4) 4).phase =
      (Start cfgEx (New cfgEx) 1).phase :=
  c6_pause_resume_roundtrip (Start cfgEx (New cfgEx) 1) 4
    (by decide) (by decide)

/-- C7: `Pause` twice in a row (at any two instants) equals `Pause`
once, and `Resume` on a non-paused engine is a silent no-op that leaves
the state unchanged. -/
theorem c7_pause_resume_noops (s : EngState) (n1 n2 n3 : Int) :
    Pause (Pause s n1) n2 = Pause s n1 ∧
    (s.paused = false → Resume s n3 = s) := by
  constructor
  · by_cases hp : s.paused <;> simp [Pause, hp]
  · intro hp
    simp [Resume, hp]

/-- C7 witness: double `Pause` and spurious `Resume` evaluated on the
running state reached by `Start` at time 1 under `cfgEx`. -/
theorem c7_witness :
    Pause (Pause (Start cfgEx (New cfgEx) 1) 3) 5 =
      Pause (Start cfgEx (New cfgEx) 1) 3 ∧
    Resume (Start cfgEx (New cfgEx) 1) 6 = Start cfgEx (New cfgEx) 1 :=
  ⟨(c7_pause_resume_noops (Start cfgEx (New cfgEx) 1) 3 5 6).1,
    (c7_pause_resume_noops (Start cfgEx (New cfgEx) 1) 3 5 6).2 (by decide)⟩

/-- C8: `Start()` unconditionally enters WORK with `startedAt = now`,
`endsAt = now + work duration`, `paused = false`, and `pausedRemain`
cleared to 0, from any state; for a valid config, `Remaining()` queried
at the instant of start equals the work duration. -/
theorem c8_start_enters_work (cfg : Config) (s : EngState) (now : Int)
    (hc : ValidConfig cfg) :
    (Start cfg s now).phase = .work ∧
    (Start cfg s now).startedAt = now ∧
    (Start cfg s now).endsAt = now + cfg.Work ∧
    (Start cfg s now).paused = false ∧
    (Start cfg s now).pausedRemain = 0 ∧
    Remaining (Start cfg s now) now = cfg.Work := by
  obtain ⟨hW, -, -, -⟩ := hc
  refine ⟨rfl, rfl, rfl, rfl, rfl, ?_⟩
  simp [Remaining, Start]
  omega

/-- C8 witness: `Start` at time 7 under `cfgEx`, from the paused state
reached by `Start` at 1 and `Pause` at 3. -/
theorem c8_witness :
    (Start cfgEx (Pause (Start cfgEx (New cfgEx) 1) 3) 7).phase = .work ∧
    (Start cfgEx (Pause (Start cfgEx (New cfgEx) 1) 3) 7).startedAt = 7 ∧
    (Start cfgEx (Pause (Start cfgEx (New cfgEx) 1) 3) 7).endsAt =
      7 + cfgEx.Work ∧
    (Start cfgEx (Pause (Start cfgEx (New cfgEx) 1) 3) 7).paused = false ∧
    (Start cfgEx (Pause (Start cfgEx (New cfgEx) 1) 3) 7).pausedRemain
      = 0 ∧
    Remaining (Start cfgEx (Pause (Start cfgEx (New cfgEx) 1) 3) 7) 7 =
      cfgEx.Work :=
  c8_start_enters_work cfgEx (Pause (Start cfgEx (New cfgEx) 1) 3) 7
    (by decide)

/-- C9: `Pause` on a freshly constructed, never-started engine is not a
no-op: since `endsAt` is the zero timestamp and the wall clock is past
it, the frozen remaining is 0, the paused flag of the idle state becomes
true, and `Remaining()` returns 0; a subsequent `Resume` then sets
`startedAt = now` and `endsAt = now` and spawns a deadline watcher from
a state that was never started. -/
theorem c9_pause_on_fresh_engine (cfg : Config) (now now2 t : Int)
    (hnow : 0 ≤ now) :
    Pause (New cfg) now ≠ New cfg ∧
    (Pause (New cfg) now).paused = true ∧
    (Pause (New cfg) now).pausedRemain = 0 ∧
    Remaining (Pause (New cfg) now) t = 0 ∧
    (Resume (Pause (New cfg) now) now2).startedAt = now2 ∧
    (Resume (Pause (New cfg) now) now2).endsAt = now2 ∧
    (Resume (Pause (New cfg) now) now2).paused = false ∧
    (Resume (Pause (New cfg) now) now2).watcher = true := by
  have hP : Pause (New cfg) now =
      { phase := .work, startedAt := 0, endsAt := 0, pomodoroDone := 0,
        paused := true, pausedRemain := 0, watcher := false } := by
    simp [Pause, New]
    omega
  rw [hP]
  refine ⟨?_, rfl, rfl, by simp [Remaining], ?_, ?_, rfl, rfl⟩
  · intro h
    have := congrArg EngState.paused h
    simp [New] at this
  · simp [Resume]
  · simp [Resume]

/-- C9 witness: the never-started pause/resume behaviour at pause time 5,
resume time 9, query time 20, under `cfgEx`. -/
theorem c9_witness :
    Pause (New cfgEx) 5 ≠ New cfgEx ∧
    (Pause (New cfgEx) 5).paused = true ∧
    (Pause (New cfgEx) 5).pausedRemain = 0 ∧
    Remaining (Pause (New cfgEx) 5) 20 = 0 ∧
    (Resume (Pause (New cfgEx) 5) 9).startedAt = 9 ∧
    (Resume (Pause (New cfgEx) 5) 9).endsAt = 9 ∧
    (Resume (Pause (New cfgEx) 5) 9).paused = false ∧
    (Resume (Pause (New cfgEx) 5) 9).watcher = true :=
  c9_pause_on_fresh_engine cfgEx 5 9 20 (by decide)

/-- C10: immediately after `New`, for every config, the snapshot is
phase WORK with both timestamps at the zero sentinel, not paused, and a
zero completed-work count; `Remaining()` returns 0 in this idle state at
any wall-clock instant at or after the zero time. -/
theorem c10_initial_state (cfg : Config) (now : Int) (hnow : 0 ≤ now) :
    State (New cfg) =
      { Phase := .work, StartedAt := 0, EndsAt := 0, PomodoroDone := 0,
        Paused := false } ∧
    Remaining (New cfg) now = 0 := by
  refine ⟨rfl, ?_⟩
  simp [Remaining, New]
  omega

/-- C10 witness: the freshly constructed engine under `cfgEx`, queried
at time 100. -/
theorem c10_witness :
    State (New cfgEx) =
      { Phase := .work, StartedAt := 0, EndsAt := 0, PomodoroDone := 0,
        Paused := false } ∧
    Remaining (New cfgEx) 100 = 0 :=
  c10_initial_state cfgEx 100 (by decide)

end GoPomodoro
